import Mathlib

/-!
Verification of the rendering core of tools/generate_social_images.py.

Python strings are embedded as lists of Unicode code points (List Char).
External libraries (Pillow, arabic_reshaper, python-bidi, BeautifulSoup,
pathlib, the filesystem) are modelled as explicit function parameters, so
every theorem quantifies over their behaviour; the control flow and
arithmetic of the script itself is translated directly.
-/

/-- Python strings are sequences of Unicode code points. -/
abbrev Str := List Char

/-- The set of characters Python's str.isspace considers whitespace; this is
the set that str.strip() and str.split() (no arguments) split or trim on. -/
def pyIsSpace (c : Char) : Bool :=
  let n := c.toNat
  (9 ≤ n && n ≤ 13) || (28 ≤ n && n ≤ 31) || n == 32 || n == 133 || n == 160 ||
    n == 0x1680 || (0x2000 ≤ n && n ≤ 0x200A) || n == 0x2028 || n == 0x2029 ||
    n == 0x202F || n == 0x205F || n == 0x3000

/-- Python str.strip(): remove leading and trailing whitespace. -/
def pyStrip (l : Str) : Str :=
  ((l.dropWhile pyIsSpace).reverse.dropWhile pyIsSpace).reverse

/-- Python str.split() with no arguments: split on runs of whitespace and
discard empty fields. -/
def pySplit (l : Str) : List Str :=
  (l.splitOnP pyIsSpace).filter (fun w => w ≠ [])

/-- Python ' '.join(words). -/
def joinWords : List Str → Str
  | [] => []
  | [w] => w
  | w :: v :: ws => w ++ ' ' :: joinWords (v :: ws)

/-- The test ARABIC_RE.search(text): does the text contain a code point in
the Arabic Unicode block U+0600 to U+06FF. -/
def hasArabic (l : Str) : Bool :=
  l.any (fun c => 0x600 ≤ c.toNat && c.toNat ≤ 0x6FF)

/-- shape_text from the script. The composition
get_display(arabic_reshaper.reshape(.)) is an external library call and is
passed in as the parameter reshapeDisplay. -/
def shape_text (reshapeDisplay : Str → Str) (text : Str) : Str :=
  let t := pyStrip text
  if t = [] then []
  else if !hasArabic t then t
  else reshapeDisplay t

theorem pyStrip_subset {l : Str} : ∀ c ∈ pyStrip l, c ∈ l := by
  intro c hc
  unfold pyStrip at hc
  rw [List.mem_reverse] at hc
  have h1 := (List.dropWhile_sublist (l := (l.dropWhile pyIsSpace).reverse)
    (p := pyIsSpace)).mem hc
  rw [List.mem_reverse] at h1
  exact (List.dropWhile_sublist (l := l) (p := pyIsSpace)).mem h1

theorem hasArabic_pyStrip {l : Str} (h : hasArabic l = false) :
    hasArabic (pyStrip l) = false := by
  rw [hasArabic, List.any_eq_false] at h ⊢
  intro c hc
  exact h c (pyStrip_subset c hc)

/-- C2 (corrected): shape_text returns the stripped text unchanged whenever
the input contains no Arabic-range code point; in particular any text with
no surrounding whitespace and no Arabic code point is returned unchanged. -/
theorem shape_text_no_arabic (reshapeDisplay : Str → Str) (text : Str)
    (h : hasArabic text = false) :
    shape_text reshapeDisplay text = pyStrip text := by
  unfold shape_text
  by_cases he : pyStrip text = []
  · simp [he]
  · simp [he, hasArabic_pyStrip h]

/-- Witness for shape_text_no_arabic at a concrete input. -/
theorem shape_text_no_arabic_witness :
    hasArabic ('a' :: []) = false ∧
      shape_text (fun s => s) ('a' :: []) = pyStrip ('a' :: []) :=
  ⟨by decide, shape_text_no_arabic (fun s => s) ('a' :: []) (by decide)⟩

/-- C2 counterexample: a text with leading whitespace and no Arabic code
point is not returned unchanged; shape_text strips it. -/
theorem shape_text_strips_counterexample :
    shape_text (fun s => s) (' ' :: 'a' :: []) ≠ (' ' :: 'a' :: []) := by
  decide

/-- Is c one of the ASCII hexadecimal digit characters accepted in a hex
numeral (0-9, a-f, A-F). -/
def isHexDigitC (c : Char) : Bool :=
  (48 ≤ c.toNat && c.toNat ≤ 57) || (97 ≤ c.toNat && c.toNat ≤ 102) ||
    (65 ≤ c.toNat && c.toNat ≤ 70)

/-- The numeric value of a hexadecimal digit character. -/
def hexVal (c : Char) : ℕ :=
  if 48 ≤ c.toNat && c.toNat ≤ 57 then c.toNat - 48
  else if 97 ≤ c.toNat && c.toNat ≤ 102 then c.toNat - 87
  else if 65 ≤ c.toNat && c.toNat ≤ 70 then c.toNat - 55
  else 0

/-- Continuation of Python int(s, 16) digit parsing: after at least one
digit has been read, accept further digits, with a single underscore
permitted only between two digits. -/
def hexRest (acc : ℕ) : Str → Option ℕ
  | [] => some acc
  | c :: rest =>
    if c = '_' then
      match rest with
      | [] => none
      | d :: rest2 =>
        if isHexDigitC d then hexRest (acc * 16 + hexVal d) rest2 else none
    else if isHexDigitC c then hexRest (acc * 16 + hexVal c) rest
    else none

/-- Python int(s, 16) digit-sequence parsing: a nonempty run of hex digits,
with single underscores permitted between digits only. -/
def hexDigitsUnd : Str → Option ℕ
  | [] => none
  | c :: rest => if isHexDigitC c then hexRest (hexVal c) rest else none

/-- Body of Python int(s, 16) parsing after sign removal: an optional 0x or
0X prefix (an underscore may directly follow the prefix), then a nonempty
underscore-separated run of hexadecimal digits. -/
def hexCore (b : Str) : Option ℕ :=
  match b with
  | b0 :: b1 :: r =>
    if b0 = '0' ∧ (b1 = 'x' ∨ b1 = 'X') then
      match r with
      | [] => hexDigitsUnd []
      | r0 :: r2 => if r0 = '_' then hexDigitsUnd r2 else hexDigitsUnd (r0 :: r2)
    else hexDigitsUnd (b0 :: b1 :: r)
  | _ => hexDigitsUnd b

/-- Python int(s, 16): strip surrounding whitespace, then an optional sign,
then an optional 0x or 0X prefix, then a nonempty underscore-separated run
of hexadecimal digits. Returns none where CPython raises ValueError.
Non-ASCII Unicode decimal digits (which CPython also accepts) are not
modelled. -/
def pyIntHex (s : Str) : Option ℤ :=
  match pyStrip s with
  | [] => none
  | c :: rest =>
    let body : Str := if c = '-' ∨ c = '+' then rest else c :: rest
    match hexCore body with
    | none => none
    | some n => some (if c = '-' then -(n : ℤ) else (n : ℤ))

/-- hex_to_rgb from the script: strip whitespace, strip all leading hash
characters, require exactly six remaining characters, and parse the three
two-character slices with Python int(., 16). Returns none where the Python
code raises ValueError. -/
def hex_to_rgb (hexColor : Str) : Option (ℤ × ℤ × ℤ) :=
  let value := (pyStrip hexColor).dropWhile (fun c => c = '#')
  if value.length ≠ 6 then none
  else
    match pyIntHex (value.take 2), pyIntHex ((value.drop 2).take 2),
        pyIntHex ((value.drop 4).take 2) with
    | some r, some g, some b => some (r, g, b)
    | _, _, _ => none

/-- C3 (corrected): the blue brand colour #1D4ED8 decodes to (29, 78, 216)
(0x4E is 78), with or without the leading hash, and the three-digit form
#ABC is rejected. -/
theorem hex_to_rgb_examples :
    hex_to_rgb (("#1D4ED8").toList) = some (29, 78, 216) ∧
      hex_to_rgb (("1D4ED8").toList) = some (29, 78, 216) ∧
      hex_to_rgb (("#ABC").toList) = none := by
  decide

/-- C3 counterexample: hex_to_rgb of #1D4ED8 is not (29, 76, 216); the
green component is 0x4E = 78, not 76. -/
theorem hex_to_rgb_not_76 :
    hex_to_rgb (("#1D4ED8").toList) ≠ some (29, 76, 216) := by
  decide

theorem hexVal_lt_16 (c : Char) : hexVal c < 16 := by
  unfold hexVal
  split_ifs with h1 h2 h3
  all_goals simp only [Bool.and_eq_true, decide_eq_true_eq] at *
  all_goals omega

theorem pyStrip_length_le (l : Str) : (pyStrip l).length ≤ l.length := by
  unfold pyStrip
  calc ((l.dropWhile pyIsSpace).reverse.dropWhile pyIsSpace).reverse.length
      = ((l.dropWhile pyIsSpace).reverse.dropWhile pyIsSpace).length := by
        rw [List.length_reverse]
    _ ≤ (l.dropWhile pyIsSpace).reverse.length := (List.dropWhile_sublist _).length_le
    _ = (l.dropWhile pyIsSpace).length := by rw [List.length_reverse]
    _ ≤ l.length := (List.dropWhile_sublist _).length_le

theorem hexCore_nil : hexCore [] = none := rfl

theorem hexCore_single (c : Char) : hexCore (c :: []) = hexDigitsUnd (c :: []) :=
  rfl

theorem hexCore_pair (c d : Char) :
    hexCore (c :: d :: []) =
      if c = '0' ∧ (d = 'x' ∨ d = 'X') then none
      else hexDigitsUnd (c :: d :: []) :=
  rfl

theorem hexDigitsUnd_single (c : Char) {n : ℕ}
    (h : hexDigitsUnd (c :: []) = some n) : n ≤ 15 := by
  have hv := hexVal_lt_16 c
  simp only [hexDigitsUnd, hexRest] at h
  split_ifs at h
  cases h
  omega

theorem hexDigitsUnd_pair (c d : Char) {n : ℕ}
    (h : hexDigitsUnd (c :: d :: []) = some n) : n ≤ 255 := by
  have hvc := hexVal_lt_16 c
  have hvd := hexVal_lt_16 d
  simp only [hexDigitsUnd, hexRest] at h
  split_ifs at h
  all_goals cases h
  all_goals omega

theorem hexCore_le2 {b : Str} (hb : b.length ≤ 2) {n : ℕ}
    (h : hexCore b = some n) : n ≤ 255 := by
  match b, hb with
  | [], _ => rw [hexCore_nil] at h; cases h
  | [c], _ =>
    rw [hexCore_single] at h
    exact le_trans (hexDigitsUnd_single c h) (by omega)
  | [c, d], _ =>
    rw [hexCore_pair] at h
    split_ifs at h
    exact hexDigitsUnd_pair c d h
  | _ :: _ :: _ :: _, hb => simp at hb

theorem pyIntHex_le2_range {s : Str} (hs : s.length ≤ 2) {n : ℤ}
    (h : pyIntHex s = some n) : -15 ≤ n ∧ n ≤ 255 := by
  have ht : (pyStrip s).length ≤ 2 := le_trans (pyStrip_length_le s) hs
  unfold pyIntHex at h
  rcases hps : pyStrip s with _ | ⟨c, rest⟩
  · rw [hps] at h
    cases h
  · rw [hps] at h
    rw [hps, List.length_cons] at ht
    have hr1 : rest.length ≤ 1 := by omega
    simp only at h
    by_cases hsgn : c = '-' ∨ c = '+'
    · rw [if_pos hsgn] at h
      have hcore : ∀ m : ℕ, hexCore rest = some m → m ≤ 15 := by
        intro m hm
        match rest, hr1 with
        | [], _ => rw [hexCore_nil] at hm; cases hm
        | [d], _ =>
          rw [hexCore_single] at hm
          exact hexDigitsUnd_single d hm
        | _ :: _ :: _, hr1 => simp at hr1
      rcases hc : hexCore rest with _ | m
      · rw [hc] at h
        cases h
      · rw [hc] at h
        have hm := hcore m hc
        simp only [Option.some_inj] at h
        split_ifs at h <;> omega
    · rw [if_neg hsgn] at h
      rcases hc : hexCore (c :: rest) with _ | m
      · rw [hc] at h
        cases h
      · rw [hc] at h
        have hm : m ≤ 255 := hexCore_le2 (by simp; omega) hc
        have hcm : ¬(c = '-') := fun hcc => hsgn (Or.inl hcc)
        simp only [Option.some_inj] at h
        rw [if_neg hcm] at h
        omega

/-- C9 (corrected): hex_to_rgb returns a value exactly when, after
stripping surrounding whitespace and all leading hash characters, six
characters remain and each two-character slice is accepted by Python
int(., 16) (which also admits a sign or surrounding whitespace inside the
slice, not only plain hex digits); each returned component lies in the
range -15..255, not 0..255. -/
theorem hex_to_rgb_characterisation (s : Str) :
    ((hex_to_rgb s).isSome = true ↔
      ((pyStrip s).dropWhile (fun c => c = '#')).length = 6 ∧
        (pyIntHex (((pyStrip s).dropWhile (fun c => c = '#')).take 2)).isSome = true ∧
        (pyIntHex ((((pyStrip s).dropWhile (fun c => c = '#')).drop 2).take 2)).isSome = true ∧
        (pyIntHex ((((pyStrip s).dropWhile (fun c => c = '#')).drop 4).take 2)).isSome = true) ∧
    (∀ r g b : ℤ, hex_to_rgb s = some (r, g, b) →
      (-15 ≤ r ∧ r ≤ 255) ∧ (-15 ≤ g ∧ g ≤ 255) ∧ (-15 ≤ b ∧ b ≤ 255)) := by
  unfold hex_to_rgb
  by_cases hv : ((pyStrip s).dropWhile (fun c => c = '#')).length = 6
  · rw [if_neg (by simp [hv])]
    have h1 : (((pyStrip s).dropWhile (fun c => c = '#')).take 2).length ≤ 2 := by
      simp [List.length_take]
    have h2 : ((((pyStrip s).dropWhile (fun c => c = '#')).drop 2).take 2).length ≤ 2 := by
      simp [List.length_take]
    have h3 : ((((pyStrip s).dropWhile (fun c => c = '#')).drop 4).take 2).length ≤ 2 := by
      simp [List.length_take]
    constructor
    · match hr : pyIntHex (((pyStrip s).dropWhile (fun c => c = '#')).take 2),
        hg : pyIntHex ((((pyStrip s).dropWhile (fun c => c = '#')).drop 2).take 2),
        hb : pyIntHex ((((pyStrip s).dropWhile (fun c => c = '#')).drop 4).take 2) with
      | none, _, _ => simp [hv, hr]
      | some r, none, _ => simp [hv, hr, hg]
      | some r, some g, none => simp [hv, hr, hg, hb]
      | some r, some g, some b => simp [hv, hr, hg, hb]
    · intro r g b hrgb
      match hr : pyIntHex (((pyStrip s).dropWhile (fun c => c = '#')).take 2),
        hg : pyIntHex ((((pyStrip s).dropWhile (fun c => c = '#')).drop 2).take 2),
        hb : pyIntHex ((((pyStrip s).dropWhile (fun c => c = '#')).drop 4).take 2) with
      | none, _, _ => rw [hr] at hrgb; simp at hrgb
      | some r0, none, _ => rw [hr, hg] at hrgb; simp at hrgb
      | some r0, some g0, none => rw [hr, hg, hb] at hrgb; simp at hrgb
      | some r0, some g0, some b0 =>
        rw [hr, hg, hb] at hrgb
        simp only [Option.some_inj, Prod.mk.injEq] at hrgb
        obtain ⟨er, eg, eb⟩ := hrgb
        subst er; subst eg; subst eb
        exact ⟨pyIntHex_le2_range h1 hr, pyIntHex_le2_range h2 hg,
          pyIntHex_le2_range h3 hb⟩
  · rw [if_pos (by simp [hv])]
    constructor
    · simp [hv]
    · intro r g b hrgb
      simp at hrgb

/-- Witness for hex_to_rgb_characterisation at a concrete input. -/
theorem hex_to_rgb_characterisation_witness :
    hex_to_rgb (("#1D4ED8").toList) = some (29, 78, 216) ∧
      ((-15 ≤ (29 : ℤ) ∧ (29 : ℤ) ≤ 255) ∧ (-15 ≤ (78 : ℤ) ∧ (78 : ℤ) ≤ 255) ∧
        (-15 ≤ (216 : ℤ) ∧ (216 : ℤ) ≤ 255)) :=
  ⟨by decide,
    (hex_to_rgb_characterisation (("#1D4ED8").toList)).2 29 78 216 (by decide)⟩

/-- C9 counterexample: the input -1-2-3 is not six hexadecimal digits, yet
hex_to_rgb accepts it, and the returned first component -1 lies outside
0..255. -/
theorem hex_to_rgb_c9_counterexample :
    hex_to_rgb (("-1-2-3").toList) = some (-1, -2, -3) ∧
      isHexDigitC '-' = false ∧ ¬(0 ≤ (-1 : ℤ)) := by
  decide

/-- The loop of wrap_text: greedy accumulation of words into lines. The
parameter measure models text_width(draw, ., font): the rendered pixel
width of a string under the chosen font. -/
def wrapLoop (measure : Str → ℕ) (rd : Str → Str) (maxWidth maxLines : ℕ) :
    List Str → List Str → List Str → List Str
  | [], lines, current =>
    if current ≠ [] ∧ lines.length < maxLines then lines ++ [joinWords current]
    else lines
  | w :: ws, lines, current =>
    let candidate := if current ≠ [] then joinWords (current ++ [w]) else w
    if measure (shape_text rd candidate) ≤ maxWidth then
      wrapLoop measure rd maxWidth maxLines ws lines (current ++ [w])
    else
      let lines2 := if current ≠ [] then lines ++ [joinWords current] else lines ++ [w]
      let current2 : List Str := if current ≠ [] then [w] else []
      if maxLines ≤ lines2.length then lines2
      else wrapLoop measure rd maxWidth maxLines ws lines2 current2

/-- wrap_text from the script: split the text into whitespace-separated
words and greedily pack them into at most maxLines lines of measured width
at most maxWidth, never splitting a word, silently discarding words past
the line cap. -/
def wrap_text (measure : Str → ℕ) (rd : Str → Str) (text : Str)
    (maxWidth maxLines : ℕ) : List Str :=
  let words := pySplit (pyStrip text)
  if words = [] then []
  else wrapLoop measure rd maxWidth maxLines words [] []

/-- A word produced by str.split(): nonempty and free of whitespace. -/
def cleanWord (w : Str) : Prop := w ≠ [] ∧ ∀ c ∈ w, pyIsSpace c = false

/-- The concatenated word sequences of a list of lines. -/
def lineWords (lines : List Str) : List Str := (lines.map pySplit).flatten

theorem splitOnP_no_sep {p : Char → Bool} :
    ∀ l : Str, ∀ w ∈ l.splitOnP p, ∀ c ∈ w, p c = false := by
  intro l
  induction l with
  | nil =>
    intro w hw c hc
    simp only [List.splitOnP_nil, List.mem_singleton] at hw
    subst hw
    simp at hc
  | cons x xs ih =>
    intro w hw c hc
    rw [List.splitOnP_cons] at hw
    by_cases hx : p x
    · rw [if_pos hx] at hw
      rcases List.mem_cons.mp hw with h1 | h1
      · subst h1; simp at hc
      · exact ih w h1 c hc
    · rw [if_neg hx] at hw
      rcases hsp : xs.splitOnP p with _ | ⟨hd, tl⟩
      · exact absurd hsp (List.splitOnP_ne_nil p xs)
      · rw [hsp] at hw
        simp only [List.modifyHead, List.mem_cons] at hw
        rcases hw with h1 | h1
        · subst h1
          rcases List.mem_cons.mp hc with h2 | h2
          · subst h2
            exact Bool.eq_false_iff.mpr hx
          · exact ih hd (hsp ▸ List.mem_cons_self hd tl) c h2
        · exact ih w (hsp ▸ List.mem_cons_of_mem hd h1) c hc

theorem pySplit_clean {l : Str} : ∀ w ∈ pySplit l, cleanWord w := by
  intro w hw
  unfold pySplit at hw
  rw [List.mem_filter] at hw
  refine ⟨by simpa using hw.2, ?_⟩
  exact splitOnP_no_sep l w hw.1

theorem pySplit_single {w : Str} (hw : cleanWord w) : pySplit w = [w] := by
  unfold pySplit
  rw [List.splitOnP_eq_single]
  · simp [List.filter, hw.1]
  · intro c hc
    simp [hw.2 c hc]

theorem pySplit_joinWords : ∀ {ws : List Str}, (∀ w ∈ ws, cleanWord w) →
    pySplit (joinWords ws) = ws := by
  intro ws
  induction ws with
  | nil => intro _; rfl
  | cons w tl ih =>
    intro hcl
    match tl, ih with
    | [], _ => exact pySplit_single (hcl w (List.mem_cons_self w []))
    | v :: ws, ih =>
      have hw := hcl w (List.mem_cons_self w _)
      have hrest : ∀ u ∈ v :: ws, cleanWord u := fun u hu =>
        hcl u (List.mem_cons_of_mem w hu)
      show pySplit (w ++ ' ' :: joinWords (v :: ws)) = w :: v :: ws
      unfold pySplit
      rw [List.splitOnP_first pyIsSpace w (fun c hc => by simp [hw.2 c hc]) ' '
        (by decide) (joinWords (v :: ws))]
      have hkeep : (decide (w ≠ [])) = true := by simp [hw.1]
      rw [List.filter_cons, if_pos hkeep]
      have hih := ih hrest
      unfold pySplit at hih
      rw [hih]

theorem lineWords_append (lines : List Str) (s : Str) :
    lineWords (lines ++ [s]) = lineWords lines ++ pySplit s := by
  simp [lineWords]

theorem wrapLoop_length_mono (measure : Str → ℕ) (rd : Str → Str)
    (maxWidth maxLines : ℕ) :
    ∀ ws lines current : List Str,
      lines.length ≤ (wrapLoop measure rd maxWidth maxLines ws lines current).length := by
  intro ws
  induction ws with
  | nil =>
    intro lines current
    simp only [wrapLoop]
    by_cases hc : current ≠ [] ∧ lines.length < maxLines
    · rw [if_pos hc]
      simp
    · rw [if_neg hc]
  | cons w ws ih =>
    intro lines current
    simp only [wrapLoop]
    by_cases hfit :
        measure (shape_text rd (if current ≠ [] then joinWords (current ++ [w]) else w)) ≤
          maxWidth
    · rw [if_pos hfit]
      exact ih lines (current ++ [w])
    · rw [if_neg hfit]
      by_cases hstop : maxLines ≤
          (if current ≠ [] then lines ++ [joinWords current] else lines ++ [w]).length
      · rw [if_pos hstop]
        by_cases hc : current ≠ []
        · rw [if_pos hc]
          simp only [List.length_append, List.length_cons, List.length_nil]
          omega
        · rw [if_neg hc]
          simp only [List.length_append, List.length_cons, List.length_nil]
          omega
      · rw [if_neg hstop]
        refine le_trans ?_ (ih _ _)
        by_cases hc : current ≠ []
        · rw [if_pos hc]
          simp only [List.length_append, List.length_cons, List.length_nil]
          omega
        · rw [if_neg hc]
          simp only [List.length_append, List.length_cons, List.length_nil]
          omega

theorem wrapLoop_grows (measure : Str → ℕ) (rd : Str → Str)
    (maxWidth maxLines : ℕ) :
    ∀ ws lines current : List Str, lines.length < maxLines →
      (current ≠ [] ∨ ws ≠ []) →
      lines.length < (wrapLoop measure rd maxWidth maxLines ws lines current).length := by
  intro ws
  induction ws with
  | nil =>
    intro lines current hlt hne
    have hc : current ≠ [] := by
      rcases hne with h | h
      · exact h
      · exact absurd rfl h
    simp only [wrapLoop]
    rw [if_pos ⟨hc, hlt⟩]
    simp
  | cons w ws ih =>
    intro lines current hlt _
    simp only [wrapLoop]
    by_cases hfit :
        measure (shape_text rd (if current ≠ [] then joinWords (current ++ [w]) else w)) ≤
          maxWidth
    · rw [if_pos hfit]
      exact ih lines (current ++ [w]) hlt (Or.inl (by simp))
    · rw [if_neg hfit]
      by_cases hstop : maxLines ≤
          (if current ≠ [] then lines ++ [joinWords current] else lines ++ [w]).length
      · rw [if_pos hstop]
        by_cases hc : current ≠ []
        · rw [if_pos hc]
          simp only [List.length_append, List.length_cons, List.length_nil]
          omega
        · rw [if_neg hc]
          simp only [List.length_append, List.length_cons, List.length_nil]
          omega
      · rw [if_neg hstop]
        refine lt_of_lt_of_le ?_ (wrapLoop_length_mono measure rd maxWidth maxLines ws _ _)
        by_cases hc : current ≠ []
        · rw [if_pos hc]
          simp only [List.length_append, List.length_cons, List.length_nil]
          omega
        · rw [if_neg hc]
          simp only [List.length_append, List.length_cons, List.length_nil]
          omega

theorem wrapLoop_main (measure : Str → ℕ) (rd : Str → Str)
    (maxWidth maxLines : ℕ) :
    ∀ ws lines current : List Str,
      (∀ u ∈ ws, cleanWord u) → (∀ u ∈ current, cleanWord u) →
      lines.length < maxLines →
      (∃ k, lineWords (wrapLoop measure rd maxWidth maxLines ws lines current) =
          lineWords lines ++ (current ++ ws).take k) ∧
      (lineWords (wrapLoop measure rd maxWidth maxLines ws lines current) =
          lineWords lines ++ (current ++ ws) ∨
        (wrapLoop measure rd maxWidth maxLines ws lines current).length = maxLines) ∧
      (wrapLoop measure rd maxWidth maxLines ws lines current).length ≤ maxLines := by
  intro ws
  induction ws with
  | nil =>
    intro lines current _ hcur hlt
    simp only [wrapLoop]
    by_cases hc : current ≠ [] ∧ lines.length < maxLines
    · rw [if_pos hc]
      have hlw : lineWords (lines ++ [joinWords current]) = lineWords lines ++ current := by
        rw [lineWords_append, pySplit_joinWords hcur]
      refine ⟨⟨current.length, ?_⟩, Or.inl ?_, ?_⟩
      · rw [hlw, List.append_nil, List.take_length]
      · rw [hlw, List.append_nil]
      · simp only [List.length_append, List.length_cons, List.length_nil]
        omega
    · rw [if_neg hc]
      have hcur0 : current = [] := by
        by_contra h
        exact hc ⟨h, hlt⟩
      subst hcur0
      exact ⟨⟨0, by simp⟩, Or.inl (by simp), by omega⟩
  | cons w ws ih =>
    intro lines current hws hcur hlt
    have hw : cleanWord w := hws w (List.mem_cons_self _ _)
    have hws' : ∀ u ∈ ws, cleanWord u := fun u hu => hws u (List.mem_cons_of_mem _ hu)
    simp only [wrapLoop]
    by_cases hfit :
        measure (shape_text rd (if current ≠ [] then joinWords (current ++ [w]) else w)) ≤
          maxWidth
    · rw [if_pos hfit]
      have hcur' : ∀ u ∈ current ++ [w], cleanWord u := by
        intro u hu
        rcases List.mem_append.mp hu with h | h
        · exact hcur u h
        · rw [List.mem_singleton] at h
          subst h
          exact hw
      have hih := ih lines (current ++ [w]) hws' hcur' hlt
      rwa [List.append_assoc, List.singleton_append] at hih
    · rw [if_neg hfit]
      by_cases hc : current ≠ []
      · simp only [if_pos hc]
        have hlw : lineWords (lines ++ [joinWords current]) = lineWords lines ++ current := by
          rw [lineWords_append, pySplit_joinWords hcur]
        by_cases hstop : maxLines ≤ (lines ++ [joinWords current]).length
        · rw [if_pos hstop]
          have hlen : (lines ++ [joinWords current]).length = maxLines := by
            simp only [List.length_append, List.length_cons, List.length_nil] at *
            omega
          refine ⟨⟨current.length, ?_⟩, Or.inr hlen, le_of_eq hlen⟩
          rw [hlw, List.take_left' rfl]
        · rw [if_neg hstop]
          push_neg at hstop
          have hone : ∀ u ∈ ([w] : List Str), cleanWord u := by
            intro u hu
            rw [List.mem_singleton] at hu
            subst hu
            exact hw
          obtain ⟨⟨k, hk⟩, hq, hle⟩ := ih (lines ++ [joinWords current]) [w] hws' hone hstop
          refine ⟨⟨current.length + k, ?_⟩, ?_, hle⟩
          · calc lineWords (wrapLoop measure rd maxWidth maxLines ws
                  (lines ++ [joinWords current]) [w])
                = (lineWords lines ++ current) ++ ([w] ++ ws).take k := by rw [hk, hlw]
              _ = lineWords lines ++ (current ++ (w :: ws).take k) := by
                  rw [List.append_assoc, List.singleton_append]
              _ = lineWords lines ++ (current ++ w :: ws).take (current.length + k) := by
                  rw [List.take_append]
          · rcases hq with hq | hq
            · left
              rw [hq, hlw, List.append_assoc, List.singleton_append]
            · right
              exact hq
      · have hc0 : current = [] := not_not.mp hc
        subst hc0
        have hcf : ¬(([] : List Str) ≠ []) := by simp
        simp only [if_neg hcf]
        have hlw : lineWords (lines ++ [w]) = lineWords lines ++ [w] := by
          rw [lineWords_append, pySplit_single hw]
        by_cases hstop : maxLines ≤ (lines ++ [w]).length
        · rw [if_pos hstop]
          have hlen : (lines ++ [w]).length = maxLines := by
            simp only [List.length_append, List.length_cons, List.length_nil] at *
            omega
          refine ⟨⟨1, ?_⟩, Or.inr hlen, le_of_eq hlen⟩
          rw [hlw]
          simp
        · rw [if_neg hstop]
          push_neg at hstop
          obtain ⟨⟨k, hk⟩, hq, hle⟩ :=
            ih (lines ++ [w]) [] hws' (by intro u hu; simp at hu) hstop
          refine ⟨⟨k + 1, ?_⟩, ?_, hle⟩
          · rw [hk, hlw, List.append_assoc]
            simp only [List.nil_append, List.take_succ_cons]
            rfl
          · rcases hq with hq | hq
            · left
              rw [hq, hlw, List.append_assoc]
              simp
            · right
              exact hq

/-- C1 (corrected): for every text that contains at least one
non-whitespace character (so that str.split() yields at least one word),
and every measure, shaper, width and line cap of at least 1, wrap_text
returns between 1 and maxLines lines; the concatenated word sequences of
the returned lines form a prefix of the word sequence of the input, and
that prefix is the whole word sequence unless exactly maxLines lines were
produced (the silent-truncation case); no ellipsis or marker is added
since every returned line is made only of input words. -/
theorem wrap_text_spec (measure : Str → ℕ) (rd : Str → Str) (text : Str)
    (maxWidth maxLines : ℕ) (hml : 1 ≤ maxLines)
    (hne : pySplit (pyStrip text) ≠ []) :
    1 ≤ (wrap_text measure rd text maxWidth maxLines).length ∧
    (wrap_text measure rd text maxWidth maxLines).length ≤ maxLines ∧
    lineWords (wrap_text measure rd text maxWidth maxLines) <+:
      pySplit (pyStrip text) ∧
    (lineWords (wrap_text measure rd text maxWidth maxLines) =
        pySplit (pyStrip text) ∨
      (wrap_text measure rd text maxWidth maxLines).length = maxLines) := by
  simp only [wrap_text]
  rw [if_neg hne]
  have h0 : ([] : List Str).length < maxLines := by
    simp only [List.length_nil]
    omega
  obtain ⟨⟨k, hk⟩, hq, hle⟩ :=
    wrapLoop_main measure rd maxWidth maxLines (pySplit (pyStrip text)) [] []
      pySplit_clean (by intro u hu; simp at hu) h0
  have hg := wrapLoop_grows measure rd maxWidth maxLines (pySplit (pyStrip text)) [] []
    h0 (Or.inr hne)
  have hlwnil : lineWords [] = [] := rfl
  simp only [hlwnil, List.nil_append] at hk hq
  refine ⟨by simpa using hg, hle, ?_, hq⟩
  refine ⟨(pySplit (pyStrip text)).drop k, ?_⟩
  rw [hk]
  exact List.take_append_drop k _

/-- C1 counterexample: a single space is a non-empty text, yet wrap_text
returns zero lines for it, not between 1 and max_lines lines. -/
theorem wrap_text_whitespace_counterexample :
    (' ' :: []) ≠ ([] : Str) ∧
      wrap_text (fun s => s.length) (fun s => s) (' ' :: []) 100 1 = [] := by
  decide

/-- Witness for wrap_text_spec at a concrete input. -/
theorem wrap_text_spec_witness :
    1 ≤ 2 ∧ pySplit (pyStrip ('a' :: 'b' :: ' ' :: 'c' :: 'd' :: [])) ≠ [] ∧
      (1 ≤ (wrap_text (fun s => s.length) (fun s => s)
          ('a' :: 'b' :: ' ' :: 'c' :: 'd' :: []) 2 2).length ∧
        (wrap_text (fun s => s.length) (fun s => s)
          ('a' :: 'b' :: ' ' :: 'c' :: 'd' :: []) 2 2).length ≤ 2 ∧
        lineWords (wrap_text (fun s => s.length) (fun s => s)
          ('a' :: 'b' :: ' ' :: 'c' :: 'd' :: []) 2 2) <+:
          pySplit (pyStrip ('a' :: 'b' :: ' ' :: 'c' :: 'd' :: [])) ∧
        (lineWords (wrap_text (fun s => s.length) (fun s => s)
            ('a' :: 'b' :: ' ' :: 'c' :: 'd' :: []) 2 2) =
            pySplit (pyStrip ('a' :: 'b' :: ' ' :: 'c' :: 'd' :: [])) ∨
          (wrap_text (fun s => s.length) (fun s => s)
            ('a' :: 'b' :: ' ' :: 'c' :: 'd' :: []) 2 2).length = 2)) :=
  ⟨by decide, by decide,
    wrap_text_spec (fun s => s.length) (fun s => s)
      ('a' :: 'b' :: ' ' :: 'c' :: 'd' :: []) 2 2 (by decide) (by decide)⟩

theorem flushed_line_ok (measure : Str → ℕ) (rd : Str → Str) (maxWidth : ℕ)
    {current : List Str} (hcur : ∀ u ∈ current, cleanWord u) (hne : current ≠ [])
    (hinv : current = [] ∨ current.length = 1 ∨
      measure (shape_text rd (joinWords current)) ≤ maxWidth) :
    1 ≤ (pySplit (joinWords current)).length ∧
      (2 ≤ (pySplit (joinWords current)).length →
        measure (shape_text rd (joinWords current)) ≤ maxWidth) := by
  have hps := pySplit_joinWords hcur
  rw [hps]
  constructor
  · exact List.length_pos.mpr hne
  · intro h2
    rcases hinv with h | h | h
    · exact absurd h hne
    · omega
    · exact h

theorem wrapLoop_width (measure : Str → ℕ) (rd : Str → Str)
    (maxWidth maxLines : ℕ) :
    ∀ ws lines current : List Str,
      (∀ u ∈ ws, cleanWord u) → (∀ u ∈ current, cleanWord u) →
      (current = [] ∨ current.length = 1 ∨
        measure (shape_text rd (joinWords current)) ≤ maxWidth) →
      (∀ l ∈ lines, 1 ≤ (pySplit l).length ∧
        (2 ≤ (pySplit l).length → measure (shape_text rd l) ≤ maxWidth)) →
      ∀ l ∈ wrapLoop measure rd maxWidth maxLines ws lines current,
        1 ≤ (pySplit l).length ∧
          (2 ≤ (pySplit l).length → measure (shape_text rd l) ≤ maxWidth) := by
  intro ws
  induction ws with
  | nil =>
    intro lines current _ hcur hinv hlines l hl
    simp only [wrapLoop] at hl
    by_cases hc : current ≠ [] ∧ lines.length < maxLines
    · rw [if_pos hc] at hl
      rcases List.mem_append.mp hl with h | h
      · exact hlines l h
      · rw [List.mem_singleton] at h
        subst h
        exact flushed_line_ok measure rd maxWidth hcur hc.1 hinv
    · rw [if_neg hc] at hl
      exact hlines l hl
  | cons w ws ih =>
    intro lines current hws hcur hinv hlines l hl
    have hw : cleanWord w := hws w (List.mem_cons_self _ _)
    have hws' : ∀ u ∈ ws, cleanWord u := fun u hu => hws u (List.mem_cons_of_mem _ hu)
    have honec : ∀ u ∈ ([w] : List Str), cleanWord u := by
      intro u hu
      rw [List.mem_singleton] at hu
      subst hu
      exact hw
    simp only [wrapLoop] at hl
    by_cases hfit :
        measure (shape_text rd (if current ≠ [] then joinWords (current ++ [w]) else w)) ≤
          maxWidth
    · rw [if_pos hfit] at hl
      have hcur' : ∀ u ∈ current ++ [w], cleanWord u := by
        intro u hu
        rcases List.mem_append.mp hu with h | h
        · exact hcur u h
        · exact honec u h
      have hinv' : current ++ [w] = [] ∨ (current ++ [w]).length = 1 ∨
          measure (shape_text rd (joinWords (current ++ [w]))) ≤ maxWidth := by
        by_cases hc : current ≠ []
        · right
          right
          rw [if_pos hc] at hfit
          exact hfit
        · right
          left
          rw [not_not.mp hc]
          rfl
      exact ih lines (current ++ [w]) hws' hcur' hinv' hlines l hl
    · rw [if_neg hfit] at hl
      by_cases hc : current ≠ []
      · simp only [if_pos hc] at hl
        have hlines2 : ∀ l2 ∈ lines ++ [joinWords current],
            1 ≤ (pySplit l2).length ∧
              (2 ≤ (pySplit l2).length → measure (shape_text rd l2) ≤ maxWidth) := by
          intro l2 hl2
          rcases List.mem_append.mp hl2 with h | h
          · exact hlines l2 h
          · rw [List.mem_singleton] at h
            subst h
            exact flushed_line_ok measure rd maxWidth hcur hc hinv
        by_cases hstop : maxLines ≤ (lines ++ [joinWords current]).length
        · rw [if_pos hstop] at hl
          exact hlines2 l hl
        · rw [if_neg hstop] at hl
          exact ih (lines ++ [joinWords current]) [w] hws' honec
            (Or.inr (Or.inl rfl)) hlines2 l hl
      · have hc0 : current = [] := not_not.mp hc
        subst hc0
        have hcf : ¬(([] : List Str) ≠ []) := by simp
        simp only [if_neg hcf] at hl
        have hlines2 : ∀ l2 ∈ lines ++ [w],
            1 ≤ (pySplit l2).length ∧
              (2 ≤ (pySplit l2).length → measure (shape_text rd l2) ≤ maxWidth) := by
          intro l2 hl2
          rcases List.mem_append.mp hl2 with h | h
          · exact hlines l2 h
          · rw [List.mem_singleton] at h
            subst h
            rw [pySplit_single hw]
            refine ⟨by simp, ?_⟩
            intro h2
            simp at h2
        by_cases hstop : maxLines ≤ (lines ++ [w]).length
        · rw [if_pos hstop] at hl
          exact hlines2 l hl
        · rw [if_neg hstop] at hl
          exact ih (lines ++ [w]) [] hws' (by intro u hu; simp at hu)
            (Or.inl rfl) hlines2 l hl

/-- C8 (confirmed): every line returned by wrap_text contains at least one
word, and every line with two or more words has shaped measured width at
most maxWidth; hence only a single-word line can exceed maxWidth. -/
theorem wrap_text_width (measure : Str → ℕ) (rd : Str → Str) (text : Str)
    (maxWidth maxLines : ℕ) :
    ∀ l ∈ wrap_text measure rd text maxWidth maxLines,
      1 ≤ (pySplit l).length ∧
        (2 ≤ (pySplit l).length → measure (shape_text rd l) ≤ maxWidth) := by
  intro l hl
  simp only [wrap_text] at hl
  by_cases hne : pySplit (pyStrip text) = []
  · rw [if_pos hne] at hl
    simp at hl
  · rw [if_neg hne] at hl
    exact wrapLoop_width measure rd maxWidth maxLines _ [] [] pySplit_clean
      (by intro u hu; simp at hu) (Or.inl rfl) (by intro u hu; simp at hu) l hl

/-- Witness for wrap_text_width at a concrete input. -/
theorem wrap_text_width_witness :
    ('a' :: ' ' :: 'b' :: []) ∈
        wrap_text (fun s => s.length) (fun s => s) ('a' :: ' ' :: 'b' :: []) 3 5 ∧
      2 ≤ (pySplit ('a' :: ' ' :: 'b' :: [])).length ∧
      (shape_text (fun s => s) ('a' :: ' ' :: 'b' :: [])).length ≤ 3 :=
  ⟨by decide, by decide,
    (wrap_text_width (fun s => s.length) (fun s => s) ('a' :: ' ' :: 'b' :: []) 3 5
      ('a' :: ' ' :: 'b' :: []) (by decide)).2 (by decide)⟩

/-- Python int() applied to a real number: truncation toward zero. -/
def pyTrunc (q : ℚ) : ℤ := if 0 ≤ q then ⌊q⌋ else ⌈q⌉

/-- contain from the script: scale factor min(max_w/w, max_h/h), each output
dimension is int(dim * scale) clamped below by 1. Python float arithmetic
is idealised as exact rational arithmetic. -/
def contain (w h maxW maxH : ℕ) : ℕ × ℕ :=
  let scale : ℚ := min ((maxW : ℚ) / (w : ℚ)) ((maxH : ℚ) / (h : ℚ))
  (max 1 (pyTrunc ((w : ℚ) * scale)).toNat,
    max 1 (pyTrunc ((h : ℚ) * scale)).toNat)

theorem contain_dim (d box : ℕ) (s : ℚ) (hd : 1 ≤ d) (hbox : 1 ≤ box)
    (hs : 0 < s) (hle : (d : ℚ) * s ≤ (box : ℚ)) :
    max 1 (pyTrunc ((d : ℚ) * s)).toNat ≤ box ∧
      1 ≤ max 1 (pyTrunc ((d : ℚ) * s)).toNat ∧
      |((max 1 (pyTrunc ((d : ℚ) * s)).toNat : ℕ) : ℚ) - (d : ℚ) * s| < 1 := by
  have hd0 : (0 : ℚ) < (d : ℚ) := by exact_mod_cast hd
  have hds : 0 < (d : ℚ) * s := mul_pos hd0 hs
  have htr : pyTrunc ((d : ℚ) * s) = ⌊(d : ℚ) * s⌋ := if_pos (le_of_lt hds)
  rw [htr]
  have hfl0 : 0 ≤ ⌊(d : ℚ) * s⌋ := Int.floor_nonneg.mpr (le_of_lt hds)
  have hflle : ⌊(d : ℚ) * s⌋ ≤ (box : ℤ) := by
    have hb := Int.floor_le_floor hle
    rwa [Int.floor_natCast] at hb
  have htnle : ⌊(d : ℚ) * s⌋.toNat ≤ box := by omega
  refine ⟨max_le hbox htnle, le_max_left _ _, ?_⟩
  have hup := Int.lt_floor_add_one ((d : ℚ) * s)
  have hdn := Int.floor_le ((d : ℚ) * s)
  by_cases hm : 1 ≤ ⌊(d : ℚ) * s⌋
  · have h1 : max 1 ⌊(d : ℚ) * s⌋.toNat = ⌊(d : ℚ) * s⌋.toNat :=
      max_eq_right (by omega)
    rw [h1]
    have hcast : ((⌊(d : ℚ) * s⌋.toNat : ℕ) : ℚ) = ((⌊(d : ℚ) * s⌋ : ℤ) : ℚ) := by
      exact_mod_cast congrArg (fun z : ℤ => (z : ℚ)) (Int.toNat_of_nonneg hfl0)
    rw [hcast, abs_lt]
    constructor
    · linarith
    · have hge : (1 : ℚ) ≤ ((⌊(d : ℚ) * s⌋ : ℤ) : ℚ) := by exact_mod_cast hm
      linarith
  · have hm0 : ⌊(d : ℚ) * s⌋ = 0 := by omega
    rw [hm0] at hup ⊢
    have hmax : max 1 (0 : ℤ).toNat = 1 := by decide
    rw [hmax]
    have hlt1 : (d : ℚ) * s < 1 := by
      simpa using hup
    rw [abs_lt]
    push_cast
    constructor
    · linarith
    · linarith

/-- C4 (confirmed): for positive source dimensions and a positive box,
contain never exceeds the box, each output dimension is at least 1, and
each output dimension differs from the exact scaled dimension
dim * min(max_w/w, max_h/h) by less than one pixel (aspect preserved
within rounding; the scale factor is exactly the stated min). -/
theorem contain_spec (w h maxW maxH : ℕ) (hw : 1 ≤ w) (hh : 1 ≤ h)
    (hW : 1 ≤ maxW) (hH : 1 ≤ maxH) :
    (contain w h maxW maxH).1 ≤ maxW ∧ (contain w h maxW maxH).2 ≤ maxH ∧
    1 ≤ (contain w h maxW maxH).1 ∧ 1 ≤ (contain w h maxW maxH).2 ∧
    |((contain w h maxW maxH).1 : ℚ) -
        (w : ℚ) * min ((maxW : ℚ) / (w : ℚ)) ((maxH : ℚ) / (h : ℚ))| < 1 ∧
    |((contain w h maxW maxH).2 : ℚ) -
        (h : ℚ) * min ((maxW : ℚ) / (w : ℚ)) ((maxH : ℚ) / (h : ℚ))| < 1 := by
  have hw0 : (0 : ℚ) < (w : ℚ) := by exact_mod_cast hw
  have hh0 : (0 : ℚ) < (h : ℚ) := by exact_mod_cast hh
  have hW0 : (0 : ℚ) < (maxW : ℚ) := by exact_mod_cast hW
  have hH0 : (0 : ℚ) < (maxH : ℚ) := by exact_mod_cast hH
  have hs : 0 < min ((maxW : ℚ) / (w : ℚ)) ((maxH : ℚ) / (h : ℚ)) :=
    lt_min (div_pos hW0 hw0) (div_pos hH0 hh0)
  have hwle : (w : ℚ) * min ((maxW : ℚ) / (w : ℚ)) ((maxH : ℚ) / (h : ℚ)) ≤ (maxW : ℚ) := by
    calc (w : ℚ) * min ((maxW : ℚ) / (w : ℚ)) ((maxH : ℚ) / (h : ℚ))
        ≤ (w : ℚ) * ((maxW : ℚ) / (w : ℚ)) :=
          mul_le_mul_of_nonneg_left (min_le_left _ _) (le_of_lt hw0)
      _ = (maxW : ℚ) := by field_simp
  have hhle : (h : ℚ) * min ((maxW : ℚ) / (w : ℚ)) ((maxH : ℚ) / (h : ℚ)) ≤ (maxH : ℚ) := by
    calc (h : ℚ) * min ((maxW : ℚ) / (w : ℚ)) ((maxH : ℚ) / (h : ℚ))
        ≤ (h : ℚ) * ((maxH : ℚ) / (h : ℚ)) :=
          mul_le_mul_of_nonneg_left (min_le_right _ _) (le_of_lt hh0)
      _ = (maxH : ℚ) := by field_simp
  have h1 := contain_dim w maxW (min ((maxW : ℚ) / (w : ℚ)) ((maxH : ℚ) / (h : ℚ)))
    hw hW hs hwle
  have h2 := contain_dim h maxH (min ((maxW : ℚ) / (w : ℚ)) ((maxH : ℚ) / (h : ℚ)))
    hh hH hs hhle
  exact ⟨h1.1, h2.1, h1.2.1, h2.2.1, h1.2.2, h2.2.2⟩

/-- Witness for contain_spec at a concrete input. -/
theorem contain_spec_witness :
    (1 ≤ 20 ∧ 1 ≤ 10 ∧ 1 ≤ 5 ∧ 1 ≤ 4) ∧
      ((contain 20 10 5 4).1 ≤ 5 ∧ (contain 20 10 5 4).2 ≤ 4 ∧
        1 ≤ (contain 20 10 5 4).1 ∧ 1 ≤ (contain 20 10 5 4).2 ∧
        |((contain 20 10 5 4).1 : ℚ) -
            (20 : ℚ) * min ((5 : ℚ) / (20 : ℚ)) ((4 : ℚ) / (10 : ℚ))| < 1 ∧
        |((contain 20 10 5 4).2 : ℚ) -
            (10 : ℚ) * min ((5 : ℚ) / (20 : ℚ)) ((4 : ℚ) / (10 : ℚ))| < 1) :=
  ⟨⟨by decide, by decide, by decide, by decide⟩, by
    have h := contain_spec 20 10 5 4 (by decide) (by decide) (by decide) (by decide)
    convert h using 5⟩

/-- An RGBA pixel. -/
abbrev RGBA := ℕ × ℕ × ℕ × ℕ

/-- A raster image: fixed dimensions and a pixel function. -/
structure Img (π : Type) where
  width : ℕ
  height : ℕ
  pix : ℕ → ℕ → π

/-- Pillow Image.alpha_composite(base, overlay, (dx, dy)): blends the
overlay over the base at offset (dx, dy); only base pixels inside both the
base canvas and the pasted overlay rectangle change; dimensions are those
of the base. The per-pixel blending formula is the external parameter
blend. -/
def alphaComposite (blend : RGBA → RGBA → RGBA) (base ov : Img RGBA)
    (dx dy : ℕ) : Img RGBA where
  width := base.width
  height := base.height
  pix := fun i j =>
    if dx ≤ i ∧ i < dx + ov.width ∧ dy ≤ j ∧ j < dy + ov.height ∧
        i < base.width ∧ j < base.height then
      blend (base.pix i j) (ov.pix (i - dx) (j - dy))
    else base.pix i j

/-- The w-by-h RGBA shadow layer of card_with_shadow before blurring:
Image.new("RGBA", (w, h), (0, 0, 0, 130)) with putalpha(mask), where mask
is the w-by-h L canvas with a filled rounded rectangle; the mask content
function is the external parameter roundedMask. -/
def shadowLayer (roundedMask : ℕ → ℕ → ℕ → ℕ → ℕ → ℕ) (w h radius : ℕ) :
    Img RGBA where
  width := w
  height := h
  pix := fun i j => (0, 0, 0, roundedMask w h radius i j)

/-- The w-by-h RGBA card layer: Image.new("RGBA", (w, h), (255, 255, 255, 0))
with a translucent filled and outlined rounded rectangle drawn on it; the
content function is the external parameter cardContent. -/
def cardLayer (cardContent : ℕ → ℕ → ℕ → ℕ → ℕ → RGBA) (w h radius : ℕ) :
    Img RGBA where
  width := w
  height := h
  pix := fun i j => cardContent w h radius i j

/-- card_with_shadow from the script: blur the shadow layer, composite it
at (x, y + 18), composite the card layer at (x, y), and return the card's
bounding box (x, y, x + w, y + h). GaussianBlur and the drawing and
blending primitives of Pillow are external parameters. -/
def card_with_shadow (blend : RGBA → RGBA → RGBA) (blur : Img RGBA → Img RGBA)
    (roundedMask : ℕ → ℕ → ℕ → ℕ → ℕ → ℕ)
    (cardContent : ℕ → ℕ → ℕ → ℕ → ℕ → RGBA)
    (base : Img RGBA) (x y w h radius : ℕ) :
    Img RGBA × (ℕ × ℕ × ℕ × ℕ) :=
  let shadow := blur (shadowLayer roundedMask w h radius)
  let base1 := alphaComposite blend base shadow x (y + 18)
  let card := cardLayer cardContent w h radius
  let base2 := alphaComposite blend base1 card x y
  (base2, (x, y, x + w, y + h))

/-- C6 (confirmed): card_with_shadow returns the bounding box
(x, y, x + w, y + h): its origin is the requested (x, y) and its width and
height are the requested w and h. -/
theorem card_with_shadow_bbox (blend : RGBA → RGBA → RGBA)
    (blur : Img RGBA → Img RGBA) (roundedMask : ℕ → ℕ → ℕ → ℕ → ℕ → ℕ)
    (cardContent : ℕ → ℕ → ℕ → ℕ → ℕ → RGBA) (base : Img RGBA)
    (x y w h radius : ℕ) :
    (card_with_shadow blend blur roundedMask cardContent base x y w h radius).2 =
      (x, y, x + w, y + h) :=
  rfl

/-- C10 (confirmed): provided GaussianBlur preserves image dimensions (as
Pillow's filter does), card_with_shadow leaves the base dimensions
unchanged and modifies no pixel outside the union of the card rectangle
[x, x+w] x [y, y+h] and the shadow rectangle [x, x+w] x [y+18, y+h+18]. -/
theorem card_with_shadow_frame (blend : RGBA → RGBA → RGBA)
    (blur : Img RGBA → Img RGBA) (roundedMask : ℕ → ℕ → ℕ → ℕ → ℕ → ℕ)
    (cardContent : ℕ → ℕ → ℕ → ℕ → ℕ → RGBA) (base : Img RGBA)
    (x y w h radius : ℕ)
    (hbw : (blur (shadowLayer roundedMask w h radius)).width = w)
    (hbh : (blur (shadowLayer roundedMask w h radius)).height = h) :
    (card_with_shadow blend blur roundedMask cardContent base x y w h radius).1.width =
      base.width ∧
    (card_with_shadow blend blur roundedMask cardContent base x y w h radius).1.height =
      base.height ∧
    ∀ i j : ℕ,
      ¬((x ≤ i ∧ i ≤ x + w ∧ y ≤ j ∧ j ≤ y + h) ∨
        (x ≤ i ∧ i ≤ x + w ∧ y + 18 ≤ j ∧ j ≤ y + h + 18)) →
      (card_with_shadow blend blur roundedMask cardContent base x y w h radius).1.pix i j =
        base.pix i j := by
  refine ⟨rfl, rfl, ?_⟩
  intro i j hout
  simp only [card_with_shadow, alphaComposite, cardLayer]
  rw [if_neg, if_neg]
  · intro hin
    rw [hbw, hbh] at hin
    exact hout (Or.inr ⟨hin.1, by omega, hin.2.2.1, by omega⟩)
  · intro hin
    exact hout (Or.inl ⟨hin.1, by omega, hin.2.2.1, by omega⟩)

/-- Witness for card_with_shadow_frame at a concrete input. -/
theorem card_with_shadow_frame_witness :
    ((fun im : Img RGBA => im)
        (shadowLayer (fun _ _ _ _ _ => 255) 3 2 1)).width = 3 ∧
    ((fun im : Img RGBA => im)
        (shadowLayer (fun _ _ _ _ _ => 255) 3 2 1)).height = 2 ∧
    ((card_with_shadow (fun _ q => q) (fun im => im) (fun _ _ _ _ _ => 255)
        (fun _ _ _ _ _ => (255, 255, 255, 40))
        ⟨50, 50, fun _ _ => (0, 0, 0, 255)⟩ 10 10 3 2 1).1.width = 50 ∧
      (card_with_shadow (fun _ q => q) (fun im => im) (fun _ _ _ _ _ => 255)
        (fun _ _ _ _ _ => (255, 255, 255, 40))
        ⟨50, 50, fun _ _ => (0, 0, 0, 255)⟩ 10 10 3 2 1).1.height = 50 ∧
      ∀ i j : ℕ,
        ¬((10 ≤ i ∧ i ≤ 10 + 3 ∧ 10 ≤ j ∧ j ≤ 10 + 2) ∨
          (10 ≤ i ∧ i ≤ 10 + 3 ∧ 10 + 18 ≤ j ∧ j ≤ 10 + 2 + 18)) →
        (card_with_shadow (fun _ q => q) (fun im => im) (fun _ _ _ _ _ => 255)
          (fun _ _ _ _ _ => (255, 255, 255, 40))
          ⟨50, 50, fun _ _ => (0, 0, 0, 255)⟩ 10 10 3 2 1).1.pix i j =
          (fun _ _ => ((0, 0, 0, 255) : RGBA)) i j) :=
  ⟨rfl, rfl,
    card_with_shadow_frame (fun _ q => q) (fun im => im) (fun _ _ _ _ _ => 255)
      (fun _ _ _ _ _ => (255, 255, 255, 40))
      ⟨50, 50, fun _ _ => (0, 0, 0, 255)⟩ 10 10 3 2 1 rfl rfl⟩

/-- The two Python exception classes parse_product_page can raise. -/
inductive PyError where
  | valueError (msg : Str)
  | fileNotFoundError (msg : Str)
deriving DecidableEq

/-- ProductInfo from the script (paths and URLs kept as strings). -/
structure ProductInfo where
  slug : Str
  name_en : Str
  desc_ar : Str
  spec_ar : Str
  price : Str
  image_path : Str
  page_url : Str
deriving DecidableEq

/-- A parsed HTML element as BeautifulSoup exposes it to this script: its
attribute list and the result of get_text(" ", strip=True). -/
structure Tag where
  attrs : List (Str × Str)
  text : Str
deriving DecidableEq

/-- Tag.get(name): the attribute value, or none when absent. -/
def tagGet (t : Tag) (k : Str) : Option Str :=
  (t.attrs.find? (fun p => p.1 == k)).map (fun p => p.2)

/-- The six select_one query results parse_product_page performs on the
document, in source order: .product-page-info h1, .product-page-desc,
.product-page-specs li span, .product-page-price .price,
.product-page-img img and link[rel=canonical]. -/
structure Soup where
  infoH1 : Option Tag
  pageDesc : Option Tag
  pageSpec : Option Tag
  pagePrice : Option Tag
  pageImg : Option Tag
  canonical : Option Tag

/-- Python truthiness collapse a or b for strings: b when a is None or
empty, else the value of a. -/
def pyOr (o : Option Str) (b : Str) : Str :=
  match o with
  | some v => if v = [] then b else v
  | none => b

/-- parse_product_page from the script. External behaviour is passed in:
stripMarkup models the nested BeautifulSoup(...).get_text(" ", strip=True)
re-parse of the title, joinResolve models (html_path.parent / src).resolve(),
fsExists models Path.exists, htmlStem and htmlName are html_path.stem and
html_path.name, and soup holds the selector results on the document. -/
def parse_product_page (stripMarkup : Str → Str) (joinResolve : Str → Str → Str)
    (fsExists : Str → Bool) (htmlStem htmlName parentDir : Str) (soup : Soup) :
    Except PyError ProductInfo :=
  let slug := htmlStem
  match soup.infoH1 with
  | none => .error (.valueError (("Missing product title (<h1>) in ").toList ++ htmlName))
  | some h1 =>
    let name_en0 := pyStrip (pyOr (tagGet h1 (("data-en").toList)) h1.text)
    let name_en := stripMarkup name_en0
    let desc_ar : Str :=
      match soup.pageDesc with
      | some d => (tagGet d (("data-ar").toList)).getD []
      | none => []
    let spec_ar : Str :=
      match soup.pageSpec with
      | some sp => (tagGet sp (("data-ar").toList)).getD []
      | none => []
    let price : Str :=
      pyStrip (match soup.pagePrice with
        | some p => p.text
        | none => [])
    match soup.pageImg with
    | none => .error (.valueError (("Missing product image in ").toList ++ htmlName))
    | some img =>
      match tagGet img (("src").toList) with
      | none => .error (.valueError (("Missing product image in ").toList ++ htmlName))
      | some src =>
        if src = [] then
          .error (.valueError (("Missing product image in ").toList ++ htmlName))
        else
          let image_path := joinResolve parentDir src
          if fsExists image_path then
            let page_url : Str :=
              match soup.canonical with
              | some c => pyStrip ((tagGet c (("href").toList)).getD [])
              | none => []
            .ok { slug := slug, name_en := name_en, desc_ar := pyStrip desc_ar,
                  spec_ar := pyStrip spec_ar, price := price,
                  image_path := image_path, page_url := page_url }
          else
            .error (.fileNotFoundError (("Product image not found: ").toList ++ image_path))

theorem infix_of_append_right {l m : Str} (h : l <:+: m) (b : Str) :
    l <:+: m ++ b := by
  obtain ⟨s, t, rfl⟩ := h
  exact ⟨s, t ++ b, by simp⟩

/-- C5 (confirmed): a page whose title heading is missing fails with a
ValueError naming the missing title; with a valid title, a missing or empty
product photo reference fails with a descriptive ValueError, and an
existing reference whose resolved file does not exist fails with a
FileNotFoundError; the optional fields (description, spec line, price,
canonical URL) default to the empty string instead of failing. -/
theorem parse_product_page_spec (stripMarkup : Str → Str)
    (joinResolve : Str → Str → Str) (fsExists : Str → Bool)
    (htmlStem htmlName parentDir : Str) (soup : Soup) :
    (soup.infoH1 = none →
      parse_product_page stripMarkup joinResolve fsExists htmlStem htmlName
          parentDir soup =
        .error (.valueError (("Missing product title (<h1>) in ").toList ++ htmlName)) ∧
      ("title").toList <:+: ("Missing product title (<h1>) in ").toList ++ htmlName) ∧
    (∀ h1 : Tag, soup.infoH1 = some h1 →
      (soup.pageImg = none ∨
        (∃ img : Tag, soup.pageImg = some img ∧
          (tagGet img (("src").toList) = none ∨
            tagGet img (("src").toList) = some []))) →
      parse_product_page stripMarkup joinResolve fsExists htmlStem htmlName
          parentDir soup =
        .error (.valueError (("Missing product image in ").toList ++ htmlName)) ∧
      ("image").toList <:+: ("Missing product image in ").toList ++ htmlName) ∧
    (∀ (h1 img : Tag) (src : Str), soup.infoH1 = some h1 →
      soup.pageImg = some img → tagGet img (("src").toList) = some src →
      src ≠ [] → fsExists (joinResolve parentDir src) = false →
      parse_product_page stripMarkup joinResolve fsExists htmlStem htmlName
          parentDir soup =
        .error (.fileNotFoundError
          (("Product image not found: ").toList ++ joinResolve parentDir src)) ∧
      ("not found").toList <:+:
        ("Product image not found: ").toList ++ joinResolve parentDir src) ∧
    (∀ (h1 img : Tag) (src : Str), soup.infoH1 = some h1 →
      soup.pageImg = some img → tagGet img (("src").toList) = some src →
      src ≠ [] → fsExists (joinResolve parentDir src) = true →
      soup.pageDesc = none → soup.pageSpec = none → soup.pagePrice = none →
      soup.canonical = none →
      ∃ info : ProductInfo,
        parse_product_page stripMarkup joinResolve fsExists htmlStem htmlName
            parentDir soup = .ok info ∧
          info.desc_ar = [] ∧ info.spec_ar = [] ∧ info.price = [] ∧
          info.page_url = []) := by
  refine ⟨?_, ?_, ?_, ?_⟩
  · intro h
    refine ⟨?_, infix_of_append_right (by decide) htmlName⟩
    simp only [parse_product_page, h]
  · intro h1 hh1 himg
    refine ⟨?_, infix_of_append_right (by decide) htmlName⟩
    rcases himg with himg | ⟨img, himg, hsrc⟩
    · simp only [parse_product_page, hh1, himg]
    · rcases hsrc with hsrc | hsrc
      · simp only [parse_product_page, hh1, himg, hsrc]
      · simp only [parse_product_page, hh1, himg, hsrc]
        simp
  · intro h1 img src hh1 himg hsrc hsne hfs
    refine ⟨?_, infix_of_append_right (by decide) (joinResolve parentDir src)⟩
    simp only [parse_product_page, hh1, himg, hsrc, if_neg hsne, hfs]
    simp
  · intro h1 img src hh1 himg hsrc hsne hfs hdesc hspec hprice hcanon
    simp only [parse_product_page, hh1, himg, hsrc, if_neg hsne, hfs,
      hdesc, hspec, hprice, hcanon, if_pos rfl]
    exact ⟨_, rfl, rfl, rfl, rfl, rfl⟩

/-- A concrete title tag used to exercise parse_product_page. -/
def tagT : Tag := ⟨[], ("T").toList⟩

/-- A concrete product image tag with a src attribute. -/
def tagImg : Tag := ⟨[((("src").toList), (("p.png").toList))], []⟩

/-- A synthetic page with no title heading. -/
def soupNoTitle : Soup := ⟨none, none, none, none, none, none⟩

/-- A synthetic page with a title but no product image. -/
def soupNoImg : Soup := ⟨some tagT, none, none, none, none, none⟩

/-- A synthetic page with a title and an image reference and nothing else. -/
def soupFull : Soup := ⟨some tagT, none, none, none, some tagImg, none⟩

/-- Witness for parse_product_page_spec at concrete inputs exercising all
four branches. -/
theorem parse_product_page_spec_witness :
    (soupNoTitle.infoH1 = none ∧
      parse_product_page (fun s => s) (fun _ b => b) (fun _ => false)
          (("x").toList) (("x.html").toList) (("d").toList) soupNoTitle =
        .error (.valueError
          (("Missing product title (<h1>) in ").toList ++ ("x.html").toList))) ∧
    (soupNoImg.infoH1 = some tagT ∧ soupNoImg.pageImg = none ∧
      parse_product_page (fun s => s) (fun _ b => b) (fun _ => false)
          (("x").toList) (("x.html").toList) (("d").toList) soupNoImg =
        .error (.valueError
          (("Missing product image in ").toList ++ ("x.html").toList))) ∧
    (tagGet tagImg (("src").toList) = some (("p.png").toList) ∧
      parse_product_page (fun s => s) (fun _ b => b) (fun _ => false)
          (("x").toList) (("x.html").toList) (("d").toList) soupFull =
        .error (.fileNotFoundError
          (("Product image not found: ").toList ++ ("p.png").toList))) ∧
    (∃ info : ProductInfo,
      parse_product_page (fun s => s) (fun _ b => b) (fun _ => true)
          (("x").toList) (("x.html").toList) (("d").toList) soupFull =
        .ok info ∧
        info.desc_ar = [] ∧ info.spec_ar = [] ∧ info.price = [] ∧
        info.page_url = []) :=
  ⟨⟨rfl,
    ((parse_product_page_spec (fun s => s) (fun _ b => b) (fun _ => false)
      (("x").toList) (("x.html").toList) (("d").toList) soupNoTitle).1 rfl).1⟩,
   ⟨rfl, rfl,
    ((parse_product_page_spec (fun s => s) (fun _ b => b) (fun _ => false)
      (("x").toList) (("x.html").toList) (("d").toList) soupNoImg).2.1 tagT rfl
      (Or.inl rfl)).1⟩,
   ⟨by decide,
    ((parse_product_page_spec (fun s => s) (fun _ b => b) (fun _ => false)
      (("x").toList) (("x.html").toList) (("d").toList) soupFull).2.2.1 tagT
      tagImg (("p.png").toList) rfl rfl (by decide) (by decide) rfl).1⟩,
   (parse_product_page_spec (fun s => s) (fun _ b => b) (fun _ => true)
      (("x").toList) (("x.html").toList) (("d").toList) soupFull).2.2.2 tagT
      tagImg (("p.png").toList) rfl rfl (by decide) (by decide) rfl rfl rfl rfl
      rfl⟩

/-- SIZES from the script: the three output kinds and their dimensions. -/
def SIZES : List (Str × ℕ × ℕ) :=
  [((("square").toList), 1080, 1080), ((("story").toList), 1080, 1920),
    ((("og").toList), 1200, 630)]

/-- The parsed command-line arguments main() consumes. -/
structure Args where
  all : Bool
  product : List Str
  site_only : Bool
  dry_run : Bool
  format : Option Str

/-- The environment main() runs in: whether load_fonts succeeds, the sorted
glob of product pages, per-page existence, the outcome of
parse_product_page per page, and per-render success (false models a raised
exception caught by the per-render handler). Site images are rendered
outside any try/except, so they have no failure mode inside main(); a
raised exception there would propagate out of main() rather than produce a
return value. -/
structure DriverEnv where
  fontsOk : Bool
  scannedProducts : List Str
  pageExists : Str → Bool
  parsePage : Str → Except PyError ProductInfo
  renderOk : Str → Str → Bool

/-- Lexicographic code-point order on strings, as Python sorted() uses. -/
def strLe : Str → Str → Bool
  | [], _ => true
  | _ :: _, [] => false
  | a :: as, b :: bs =>
    if a.toNat < b.toNat then true
    else if b.toNat < a.toNat then false
    else strLe as bs

def insertStr (x : Str) : List Str → List Str
  | [] => [x]
  | y :: ys => if strLe x y then x :: y :: ys else y :: insertStr x ys

/-- Python sorted() on a list of strings (insertion sort). -/
def sortStr (l : List Str) : List Str := l.foldr insertStr []

/-- The sizes main() selects: all of SIZES, or the one matching format. -/
def selectedSizes (args : Args) : List (Str × ℕ × ℕ) :=
  SIZES.filter (fun ks =>
    match args.format with
    | none => true
    | some f => ks.1 == f)

/-- sorted({slug.strip() for slug in args.product if slug.strip()}). -/
def wantedSlugs (args : Args) : List Str :=
  sortStr (((args.product.map pyStrip).filter (fun s => s ≠ [])).dedup)

/-- The number of item errors main() counts over the product pages: a
missing page, a parse failure, or (when not a dry run) each per-render
exception. -/
def itemErrors (env : DriverEnv) (args : Args) (files : List Str) : ℕ :=
  (files.map (fun f =>
    if env.pageExists f = false then 1
    else
      match env.parsePage f with
      | .error _ => 1
      | .ok product =>
        if args.dry_run then 0
        else ((selectedSizes args).filter
          (fun ks => env.renderOk product.slug ks.1 = false)).length)).sum

/-- The product pages main() actually attempts: none in site-only mode or
when no product was selected, the sorted glob for --all, else the sorted
deduplicated requested slugs. -/
def attemptedFiles (env : DriverEnv) (args : Args) : List Str :=
  if args.site_only = true then []
  else if args.all = true then sortStr env.scannedProducts
  else wantedSlugs args

/-- The exit code of main(): 1 when fonts are missing, 0 after site-only
rendering, 0 when no product was selected, else 0 exactly when no item
error was counted. -/
def mainRun (env : DriverEnv) (args : Args) : ℕ :=
  if env.fontsOk = false then 1
  else if args.site_only = true then 0
  else if args.all = false ∧ wantedSlugs args = [] then 0
  else if itemErrors env args
      (if args.all = true then sortStr env.scannedProducts else wantedSlugs args) = 0
    then 0
  else 1

/-- C7 (corrected): provided the fonts load, the driver exits with 0
exactly when no attempted item errored, and non-zero when any item errored
even if others succeeded; when fonts are missing the run aborts with a
non-zero exit before attempting any item. -/
theorem main_exit_spec (env : DriverEnv) (args : Args)
    (hf : env.fontsOk = true) :
    mainRun env args = 0 ↔
      itemErrors env args (attemptedFiles env args) = 0 := by
  unfold mainRun attemptedFiles
  rw [hf]
  simp only [Bool.true_eq_false, if_false]
  by_cases hso : args.site_only = true
  · simp only [hso, if_true, itemErrors, List.map_nil, List.sum_nil]
  · simp only [hso, if_false]
    by_cases hall : args.all = true
    · have hnot : ¬(args.all = false ∧ wantedSlugs args = []) := by
        simp [hall]
      simp only [hall, if_true, if_neg hnot]
      by_cases he : itemErrors env args (sortStr env.scannedProducts) = 0
      · simp [he]
      · simp [he]
    · have hallf : args.all = false := by
        revert hall
        cases args.all <;> simp
      simp only [hallf, Bool.false_eq_true, if_false, eq_self_iff_true,
        true_and]
      by_cases hw : wantedSlugs args = []
      · simp [hw, itemErrors]
      · simp only [if_neg hw]
        by_cases he : itemErrors env args (wantedSlugs args) = 0
        · simp [he]
        · simp [he]

/-- A driver environment whose fonts fail to load. -/
def envFontless : DriverEnv :=
  ⟨false, [], fun _ => true, fun _ => .error (.valueError []), fun _ _ => true⟩

/-- A driver environment whose fonts load. -/
def envOk : DriverEnv :=
  ⟨true, [], fun _ => true, fun _ => .error (.valueError []), fun _ _ => true⟩

/-- Arguments selecting nothing in particular. -/
def argsNone : Args := ⟨false, [], false, false, none⟩

/-- C7 counterexample: when fonts are missing the exit status is 1 even
though no item errored, so the exit status is not zero whenever no item
errored. -/
theorem main_font_counterexample :
    mainRun envFontless argsNone = 1 ∧
      itemErrors envFontless argsNone (attemptedFiles envFontless argsNone) = 0 := by
  constructor
  · rfl
  · rfl

/-- Witness for main_exit_spec at a concrete input. -/
theorem main_exit_spec_witness :
    envOk.fontsOk = true ∧
      (mainRun envOk argsNone = 0 ↔
        itemErrors envOk argsNone (attemptedFiles envOk argsNone) = 0) :=
  ⟨rfl, main_exit_spec envOk argsNone rfl⟩
